import Mathlib

/-!
Verification of the HolidayBot holiday-cache subsystem
(`HolidayBot/bot/utils/holidays.py` and `HolidayBot/bot/messages.py`).

The Python code is shallowly embedded:
* Python strings are Lean `String`s; the Python `str` helpers that the code
  relies on (`strip`, `split(":")`, `int(...)`, `lower`, substring tests)
  are modelled explicitly below on `List Char`.  `str.strip`/`str.lower`
  are modelled for the ASCII and Cyrillic ranges, which covers every string
  the code manipulates; `int(...)` is modelled without the underscore
  digit-group extension.
* Calendar dates are modelled by their proleptic ordinal (`Int`, as in
  Python's `date.toordinal`), so `timedelta(days = k)` is `+ k`.  A stored
  date field of the cache document is `Option Int`: `none` models both an
  absent field and a field whose text `date.fromisoformat` rejects (the
  code treats the two identically: the slot is skipped).
* All datetimes that the code manipulates are Moscow-local; a datetime is a
  calendar ordinal plus hour and minute (seconds never influence any
  claimed behaviour).
* `async` functions are modelled as pure state transformers; the raised
  exceptions of the fallible operations appear as `Except`.
-/

namespace HolidayBot

/-! ## Python string primitives -/

/-- Whitespace for `str.strip` (ASCII whitespace characters). -/
def pyIsSpace (c : Char) : Bool :=
  c == ' ' || c == '\t' || c == '\n' || c == '\r' || c == '\x0b' || c == '\x0c'

def stripLeft : List Char → List Char
  | [] => []
  | c :: t => if pyIsSpace c then stripLeft t else c :: t

/-- Model of `str.strip()` on a character list. -/
def pyStripChars (l : List Char) : List Char :=
  ((stripLeft ((stripLeft l.reverse)).reverse))

/-- Model of `str.strip()`. -/
def pyStrip (s : String) : String :=
  ⟨pyStripChars s.data⟩

/-- Model of `str.split(":")` (separator a single colon). -/
def splitColon : List Char → List (List Char)
  | [] => [[]]
  | c :: t =>
    if c = ':' then [] :: splitColon t
    else
      match splitColon t with
      | [] => [[c]]
      | h :: r => (c :: h) :: r

/-- Accumulator for an all-digit run: `none` as soon as a non-digit shows. -/
def digitsVal : List Char → Nat → Option Nat
  | [], acc => some acc
  | c :: t, acc =>
    if c.isDigit then digitsVal t (10 * acc + (c.toNat - 48)) else none

/-- Value of a non-empty all-digit string, else `none`. -/
def digitsToNat : List Char → Option Nat
  | [] => none
  | l => digitsVal l 0

/-- Model of Python `int(str)`: surrounding whitespace stripped, one
optional sign, then a non-empty digit run. -/
def pyIntChars (l : List Char) : Option Int :=
  match pyStripChars l with
  | '+' :: rest => (digitsToNat rest).map Int.ofNat
  | '-' :: rest => (digitsToNat rest).map (fun n => -(n : Int))
  | t => (digitsToNat t).map Int.ofNat

/-- Model of `f"{n:02d}"` for the non-negative values that reach it. -/
def pad2 (n : Nat) : String :=
  if n < 10 then "0" ++ Nat.repr n else Nat.repr n

/-- Case mapping of `str.lower` for the ASCII letters and the Cyrillic
letters (`А`..`Я` and `Ё`), which covers every string the code lowers. -/
def pyLowerChar (c : Char) : Char :=
  if 'A' ≤ c ∧ c ≤ 'Z' then Char.ofNat (c.toNat + 32)
  else if 'А' ≤ c ∧ c ≤ 'Я' then Char.ofNat (c.toNat + 32)
  else if c = 'Ё' then 'ё'
  else c

/-- Model of `str.lower()`. -/
def pyLower (s : String) : String :=
  ⟨s.data.map pyLowerChar⟩

def listIsPrefixOf [DecidableEq α] : List α → List α → Bool
  | [], _ => true
  | _ :: _, [] => false
  | a :: t, b :: u => a = b && listIsPrefixOf t u

def containsChars [DecidableEq α] : List α → List α → Bool
  | _, [] => true
  | [], _ :: _ => false
  | s@(_ :: t), pat => listIsPrefixOf pat s || containsChars t pat

/-- Model of Python `pat in s` (substring containment). -/
def pyContains (s pat : String) : Bool :=
  containsChars s.data pat.data

/-! ## `_normalize_time` (holidays.py lines 398-415) -/

def timeFormatMsg : String := "Время должно быть в формате ЧЧ:ММ"

def timeRangeMsg : String := "Недопустимое значение часов или минут"

/-- Model of `_normalize_time`: strip, split on `":"` into exactly two
fields, parse each as `int`, range-check 0-23 / 0-59, and re-render
zero-padded.  A raised `ValueError` is the `Except.error` case. -/
def _normalize_time (value : String) : Except String String :=
  let valuestrip := pyStrip value
  if valuestrip = "" then .error timeFormatMsg
  else
    match splitColon valuestrip.data with
    | [h, m] =>
      match pyIntChars h, pyIntChars m with
      | some hourInt, some minuteInt =>
        if 0 ≤ hourInt ∧ hourInt ≤ 23 ∧ 0 ≤ minuteInt ∧ minuteInt ≤ 59 then
          .ok (pad2 hourInt.toNat ++ ":" ++ pad2 minuteInt.toNat)
        else .error timeRangeMsg
      | _, _ => .error timeFormatMsg
    | _ => .error timeFormatMsg

/-! ## `select_autopost_holiday` (holidays.py lines 251-257) -/

/-- Model of `select_autopost_holiday`: drop entries whose lowercase form
contains the substring `"россия"` or `"russia"`, return the first survivor,
falling back to the first entry; `none` on the empty list. -/
def select_autopost_holiday (holidays : List String) : Option String :=
  match holidays with
  | [] => none
  | first :: _ =>
    let withoutRussia := holidays.filter
      (fun item => !(pyContains (pyLower item) "россия") && !(pyContains (pyLower item) "russia"))
    match withoutRussia with
    | [] => some first
    | w :: _ => some w

/-! ## Data model (holidays.py lines 21-35 and the persisted document) -/

/-- A Moscow-local instant: proleptic date ordinal (as in Python's
`date.toordinal`) plus hour and minute.  Seconds and sub-seconds never
influence any claimed behaviour and are not modelled. -/
structure LocalDT where
  dateOrd : Int
  hour : Nat
  minute : Nat
deriving DecidableEq, Repr

/-- `HolidayResult` (lines 25-35). -/
structure HolidayResult where
  date : Int
  holidays : List String
  source_url : String
  fetched_at : LocalDT
  error : Option String := none
deriving DecidableEq, Repr

/-- `HolidayResult.has_data` (lines 33-35). -/
def HolidayResult.has_data (r : HolidayResult) : Bool :=
  !r.holidays.isEmpty

/-- One persisted slot of the cache document.  A `none` date models both an
absent `date` field and one whose text `date.fromisoformat` rejects — the
code treats them identically (the slot is skipped / yields no result).
Likewise `none` for `fetched_at` models an absent or unparseable value. -/
structure Entry where
  date : Option Int := none
  holidays : List String := []
  fetched_at : Option LocalDT := none
  source_url : Option String := none
deriving DecidableEq, Repr

/-- The cache document in its documented shape (`autopost_time`,
`updated_at`, `today`, `tomorrow`), as produced by the module's own writes;
`none` models an absent field. -/
structure Payload where
  autopost_time : Option String := none
  updated_at : Option LocalDT := none
  today : Option Entry := none
  tomorrow : Option Entry := none
deriving DecidableEq, Repr

def CALEND_RU_URL : String := "https://www.calend.ru/day/"

def noHolidaysMsg : String := "Не найдено праздников на сегодня."

def staleCacheMsg : String := "Не удалось обновить данные о праздниках, показаны сохранённые ранее."

def fetchFailedMsg : String := "Не удалось получить данные о праздниках."

/-- `payload.get(key) or {}`. -/
def effEntry (slot : Option Entry) : Entry :=
  slot.getD {}

/-- The stored date of a slot as the query path reads it. -/
def slotDate (slot : Option Entry) : Option Int :=
  (effEntry slot).date

/-- `_payload_entry_to_result` (lines 305-324); `wallNow` is the ambient
wall clock `_normalize_now(None)` used when `fetched_at` is absent or
unparseable. -/
def _payload_entry_to_result (wallNow : LocalDT) (entry : Entry) : Option HolidayResult :=
  match entry.date with
  | none => none
  | some parsedDate =>
    some { date := parsedDate
           holidays := entry.holidays
           source_url :=
             match entry.source_url with
             | some u => if u = "" then CALEND_RU_URL else u
             | none => CALEND_RU_URL
           fetched_at := entry.fetched_at.getD wallNow
           error := if entry.holidays.isEmpty then some noHolidaysMsg else none }

/-- `get_cached_holiday_result` (lines 138-151): try the `today` slot, then
the `tomorrow` slot; a slot with a missing or unparseable date is skipped. -/
def get_cached_holiday_result (wallNow : LocalDT) (p : Payload) (target_date : Int) :
    Option HolidayResult :=
  if slotDate p.today = some target_date then
    _payload_entry_to_result wallNow (effEntry p.today)
  else if slotDate p.tomorrow = some target_date then
    _payload_entry_to_result wallNow (effEntry p.tomorrow)
  else none

/-- `_serialize_day` (lines 260-266). -/
def _serialize_day (target_date : Int) (holidays : List String) (fetched_at : LocalDT) : Entry :=
  { date := some target_date
    holidays := holidays
    fetched_at := some fetched_at
    source_url := some CALEND_RU_URL }

/-! ## Page parser (`_HolidayAnchorParser`, lines 38-88)

The stdlib `HTMLParser` tokenizer is external to the repository; the
embedded parser consumes its event stream (start tags with attributes, end
tags, character data), which is exactly the interface the class overrides. -/

inductive HtmlEvent where
  | startTag (tag : String) (attrs : List (String × Option String))
  | endTag (tag : String)
  | textData (text : String)
deriving DecidableEq, Repr

/-- `dict(attrs).get(k)`: in a Python dict built from a pair list the last
occurrence of a key wins. -/
def attrsGet (attrs : List (String × Option String)) (k : String) : Option (Option String) :=
  attrs.reverse.lookup k

/-- `dict(attrs).get("id")` flattened: equality with the target id string
requires a present, non-`None` value. -/
def attrId (attrs : List (String × Option String)) : Option String :=
  (attrsGet attrs "id").bind id

/-- `dict(attrs).get("href") or ""`. -/
def attrHref (attrs : List (String × Option String)) : String :=
  ((attrsGet attrs "href").bind id).getD ""

/-- The fixed holiday-entry path pattern test: `"/holidays/0/0/" in href`. -/
def hrefMatches (href : String) : Bool :=
  pyContains href "/holidays/0/0/"

/-- The mutable fields of `_HolidayAnchorParser`. -/
structure PState where
  insideTarget : Bool := false
  targetDepth : Nat := 0
  capture : Bool := false
  buffer : List String := []
  holidays : List String := []
deriving DecidableEq, Repr

/-- `handle_starttag` (lines 54-71). -/
def handle_starttag (targetDivId : String) (s : PState) (tag : String)
    (attrs : List (String × Option String)) : PState :=
  if tag = "div" then
    if s.insideTarget then { s with targetDepth := s.targetDepth + 1 }
    else if attrId attrs = some targetDivId then
      { s with insideTarget := true, targetDepth := 1 }
    else s
  else if !s.insideTarget then s
  else if tag = "a" then
    if hrefMatches (attrHref attrs) then { s with capture := true, buffer := [] }
    else s
  else s

/-- `handle_endtag` (lines 73-84); `depth - 1 ≤ 0` is the code's
`self._target_depth <= 0` after the decrement. -/
def handle_endtag (s : PState) (tag : String) : PState :=
  if s.insideTarget ∧ tag = "div" then
    if s.targetDepth ≤ 1 then { s with insideTarget := false, targetDepth := 0 }
    else { s with targetDepth := s.targetDepth - 1 }
  else if tag = "a" ∧ s.capture then
    let text := pyStrip (String.join s.buffer)
    { s with capture := false, buffer := [],
             holidays := if text = "" then s.holidays else s.holidays ++ [text] }
  else s

/-- `handle_data` (lines 86-88). -/
def handle_data (s : PState) (text : String) : PState :=
  if s.capture then { s with buffer := s.buffer ++ [text] } else s

def pstep (targetDivId : String) (s : PState) : HtmlEvent → PState
  | .startTag tag attrs => handle_starttag targetDivId s tag attrs
  | .endTag tag => handle_endtag s tag
  | .textData text => handle_data s text

/-- `HTMLParser.feed`: drive the handlers over the event stream. -/
def prun (targetDivId : String) (s : PState) : List HtmlEvent → PState
  | [] => s
  | e :: rest => prun targetDivId (pstep targetDivId s e) rest

/-- A fresh `_HolidayAnchorParser(target_div_id)` fed the page: the
collected holiday names. -/
def parseHolidayAnchors (targetDivId : String) (events : List HtmlEvent) : List String :=
  (prun targetDivId {} events).holidays

/-- `f"div_{target_date:%Y-%m-%d}"` with the date rendering abstracted to
the (injective) decimal ordinal; no claimed behaviour depends on the
textual calendar format. -/
def divIdFor (target_date : Int) : String :=
  "div_" ++ toString target_date

/-- `_parse_holidays` (lines 300-302) over the tokenized page. -/
def _parse_holidays (events : List HtmlEvent) (target_date : Int) : List String :=
  parseHolidayAnchors (divIdFor target_date) events

/-! ## Declarative reference for the parser contract (spec section 4.1)

The reference follows the specification's wording: locate each section
opened by a `div` carrying the target id, tracking `div` nesting depth so
nested markup does not close the section early, and within a section
collect the trimmed, non-empty visible text of every link whose target
matches the holiday-entry pattern, in document order; content outside the
sections contributes nothing. -/

/-- A `div` start tag carrying the target id. -/
def isTargetDivStart (targetDivId : String) : HtmlEvent → Bool
  | .startTag tag attrs => tag = "div" && attrId attrs = some targetDivId
  | _ => false

/-- Split off the events strictly inside a section already open at `div`
nesting depth `depth`: the events before its closing `div` end tag, and
the events after it (an unterminated section runs to the end of input). -/
def takeRegion (depth : Nat) : List HtmlEvent → List HtmlEvent × List HtmlEvent
  | [] => ([], [])
  | e :: rest =>
    match e with
    | .startTag tag _ =>
      if tag = "div" then
        let p := takeRegion (depth + 1) rest
        (e :: p.1, p.2)
      else
        let p := takeRegion depth rest
        (e :: p.1, p.2)
    | .endTag tag =>
      if tag = "div" then
        if depth ≤ 1 then ([], rest)
        else
          let p := takeRegion (depth - 1) rest
          (e :: p.1, p.2)
      else
        let p := takeRegion depth rest
        (e :: p.1, p.2)
    | .textData _ =>
      let p := takeRegion depth rest
      (e :: p.1, p.2)

/-- Scan for target sections: in state `none` the scanner looks for the
next target `div`; in state `some (depth, acc)` it is inside a section at
the given depth with the section's events accumulated in reverse. -/
def regionsGo (targetDivId : String) : List HtmlEvent → Option (Nat × List HtmlEvent) →
    List (List HtmlEvent)
  | [], none => []
  | [], some (_, acc) => [acc.reverse]
  | e :: rest, none =>
    if isTargetDivStart targetDivId e then regionsGo targetDivId rest (some (1, []))
    else regionsGo targetDivId rest none
  | e :: rest, some (depth, acc) =>
    match e with
    | .startTag tag _ =>
      if tag = "div" then regionsGo targetDivId rest (some (depth + 1, e :: acc))
      else regionsGo targetDivId rest (some (depth, e :: acc))
    | .endTag tag =>
      if tag = "div" then
        if depth ≤ 1 then acc.reverse :: regionsGo targetDivId rest none
        else regionsGo targetDivId rest (some (depth - 1, e :: acc))
      else regionsGo targetDivId rest (some (depth, e :: acc))
    | .textData _ => regionsGo targetDivId rest (some (depth, e :: acc))

/-- The sections identified by the target id, in document order. -/
def regions (targetDivId : String) (events : List HtmlEvent) : List (List HtmlEvent) :=
  regionsGo targetDivId events none

mutual

/-- The texts of the matching links of a section, in document order:
scan for a matching link start tag. -/
def anchorTexts : List HtmlEvent → List String
  | [] => []
  | e :: rest =>
    match e with
    | .startTag tag attrs =>
      if tag = "a" && hrefMatches (attrHref attrs) then anchorCapture [] rest
      else anchorTexts rest
    | _ => anchorTexts rest

/-- Accumulate the visible text of the open link until its end tag; the
trimmed text is kept when non-empty.  A fresh matching link start restarts
the buffer, as the parser's `buffer.clear()` does; a link left open at the
section end contributes nothing here (the real parser keeps capturing past
the section — the refuted part of the claim). -/
def anchorCapture (buf : List String) : List HtmlEvent → List String
  | [] => []
  | e :: rest =>
    match e with
    | .startTag tag attrs =>
      if tag = "a" && hrefMatches (attrHref attrs) then anchorCapture [] rest
      else anchorCapture buf rest
    | .endTag tag =>
      if tag = "a" then
        let text := pyStrip (String.join buf)
        if text = "" then anchorTexts rest else text :: anchorTexts rest
      else anchorCapture buf rest
    | .textData t => anchorCapture (buf ++ [t]) rest

end

/-- Whether a link is open (capturing) after the given section events. -/
def capAfter (c : Bool) : List HtmlEvent → Bool
  | [] => c
  | e :: rest =>
    match e with
    | .startTag tag attrs =>
      capAfter (if tag = "a" && hrefMatches (attrHref attrs) then true else c) rest
    | .endTag tag => capAfter (if tag = "a" then false else c) rest
    | .textData _ => capAfter c rest

/-- No link opened inside a target section is still open when the section
ends. -/
def allRegionsClosed (targetDivId : String) (events : List HtmlEvent) : Bool :=
  (regions targetDivId events).all (fun r => !capAfter false r)

/-- The parser contract per the specification: the matching link texts of
each target section, in document order. -/
def specHolidayTexts (targetDivId : String) (events : List HtmlEvent) : List String :=
  ((regions targetDivId events).map anchorTexts).flatten

/-! ## Refresh coordinator (lines 154-248) -/

/-- The body of `refresh_holiday_cache` (lines 210-248) once
`_download_html` has succeeded: the 23:45 day-boundary shift, the rewrite
of both slots and `updated_at`, and the result built from the fresh
`today` slot. -/
def refreshCore (p : Payload) (moment : LocalDT) (events : List HtmlEvent) :
    Payload × Option HolidayResult :=
  let current_date := moment.dateOrd
  let is_near_midnight : Bool := moment.hour == 23 && 45 ≤ moment.minute
  let today_date := if is_near_midnight then current_date + 1 else current_date
  let tomorrow_date := if is_near_midnight then current_date + 2 else current_date + 1
  let today_holidays := _parse_holidays events today_date
  let tomorrow_holidays := _parse_holidays events tomorrow_date
  let payload :=
    { p with today := some (_serialize_day today_date today_holidays moment)
             tomorrow := some (_serialize_day tomorrow_date tomorrow_holidays moment)
             updated_at := some moment }
  (payload, _payload_entry_to_result moment (_serialize_day today_date today_holidays moment))

/-- `refresh_holiday_cache` (lines 199-248): `_download_html` may raise
(timeout / network error), modelled by the `fetch` argument; the raised
`RuntimeError` propagates out of the function. -/
def refresh_holiday_cache (p : Payload) (moment : LocalDT)
    (fetch : Except String (List HtmlEvent)) :
    Except String (Payload × Option HolidayResult) := do
  let events ← fetch
  pure (refreshCore p moment events)

/-- The stale-annotated copy served when a refresh fails but a slot for the
target date is still cached (lines 177-186). -/
def staleCopy (cached : HolidayResult) : HolidayResult :=
  { date := cached.date
    holidays := cached.holidays
    source_url := cached.source_url
    fetched_at := cached.fetched_at
    error := some staleCacheMsg }

/-- The synthetic empty fallback result (lines 188-196). -/
def fallbackResult (target_date : Int) (moment : LocalDT) : HolidayResult :=
  { date := target_date
    holidays := []
    source_url := CALEND_RU_URL
    fetched_at := moment
    error := some fetchFailedMsg }

/-- `get_today_holidays` (lines 154-196) for an initialized cache.  `now`
is the (Moscow-local) `_normalize_now(now)`.  Exceptions from the refresh
are the `Except.error` case of `fetch` and are caught here, exactly as the
`try/except` does.  The module global `_cached_result` assigned by
`_cache_store` is write-only (never read anywhere in the repository) and is
not modelled. -/
def get_today_holidays (p : Payload) (now : LocalDT) (force_refresh : Bool)
    (fetch : Except String (List HtmlEvent)) : Payload × HolidayResult :=
  let target_date := now.dateOrd
  match (if force_refresh then none else get_cached_holiday_result now p target_date) with
  | some cached => (p, cached)
  | none =>
    match refresh_holiday_cache p now fetch with
    | .ok (p2, some result) => (p2, result)
    | .ok (p2, none) =>
      match get_cached_holiday_result now p2 target_date with
      | some cached => (p2, staleCopy cached)
      | none => (p2, fallbackResult target_date now)
    | .error _ =>
      match get_cached_holiday_result now p target_date with
      | some cached => (p, staleCopy cached)
      | none => (p, fallbackResult target_date now)

/-! ## Autopost-time setting (lines 114-127, 418-420) -/

/-- `get_autopost_time` (lines 114-116). -/
def get_autopost_time (p : Payload) : String :=
  p.autopost_time.getD "00:00"

/-- Observable effects of `update_autopost_time`: the resulting document,
whether `_write_payload` ran, and whether `_notify_autopost_update` ran
(the latter sets the registered autopost event, lines 418-420). -/
structure UpdateOutcome where
  payload : Payload
  wrote : Bool
  signaled : Bool
  returned : String
deriving DecidableEq, Repr

/-- `update_autopost_time` (lines 119-127); a `ValueError` from
`_normalize_time` propagates. -/
def update_autopost_time (p : Payload) (value : String) : Except String UpdateOutcome := do
  let normalized ← _normalize_time value
  if p.autopost_time = some normalized then
    pure { payload := p, wrote := false, signaled := false, returned := normalized }
  else
    pure { payload := { p with autopost_time := some normalized }
           wrote := true, signaled := true, returned := normalized }

/-! ## Message formatting (`bot/messages.py`) -/

/-- `_select_holiday_emoji` (messages.py lines 35-57). -/
def _select_holiday_emoji (holiday_name : String) : String :=
  let n := pyLower holiday_name
  if pyContains n "рождеств" || pyContains n "пасх" then "✝️"
  else if pyContains n "нов" || pyContains n "ёлк" then "🎄"
  else if pyContains n "день рождения" || pyContains n "birthday" then "🥳"
  else if pyContains n "памяти" || pyContains n "вспомин" then "🕯"
  else if pyContains n "день" && pyContains n "россии" then "🇷🇺"
  else if pyContains n "мир" then "🕊️"
  else if pyContains n "люб" then "💞"
  else if pyContains n "косм" then "🚀"
  else if pyContains n "арм" || pyContains n "защитник" then "🛡️"
  else if pyContains n "семь" then "👨‍👩‍👧"
  else "✨"

/-- `"\n".join(lines)`. -/
def joinNL : List String → String
  | [] => ""
  | [l] => l
  | l :: rest => l ++ "\n" ++ joinNL rest

def noHolidaysTodayMsg : String := "🗓 Сегодня нет праздников."

/-- `format_holidays_digest` (messages.py lines 8-27). -/
def format_holidays_digest (result : HolidayResult) (limit : Nat := 10) : String :=
  if result.holidays = [] then noHolidaysTodayMsg
  else
    let visible := result.holidays.take limit
    let lines := ["🎉 Праздники на сегодня:", ""] ++
      visible.map (fun item => _select_holiday_emoji item ++ " " ++ item)
    let remaining := result.holidays.length - visible.length
    let lines := if 0 < remaining then lines ++ ["… и ещё " ++ Nat.repr remaining] else lines
    let lines :=
      match result.error with
      | some e => lines ++ ["", e]
      | none => lines
    joinNL lines

/-! ## Raw-JSON layer for initialization (lines 98-107, 327-345)

`_load_or_init_payload` handles whatever `json.loads` produced, so this
layer models untyped JSON values and the dynamic `dict` operations the
code performs on them, including the exceptions they raise. -/

/-- JSON values as `json.loads` yields them. -/
inductive JValue where
  | jnull
  | jbool (b : Bool)
  | jnum (n : Int)
  | jstr (s : String)
  | jarr (items : List JValue)
  | jobj (fields : List (String × JValue))

/-- Python truthiness of a JSON value. -/
def jTruthy : JValue → Bool
  | .jnull => false
  | .jbool b => b
  | .jnum n => n != 0
  | .jstr s => s ≠ ""
  | .jarr items => !items.isEmpty
  | .jobj fields => !fields.isEmpty

/-- The exceptions the initialization path can raise. -/
inductive PyExc where
  | attributeError
  | typeError
deriving DecidableEq, Repr

/-- `payload.get(k)`: raises `AttributeError` unless the receiver is a
dict; on a dict, the binding of the key (`None` when absent). -/
def jGet : JValue → String → Except PyExc (Option JValue)
  | .jobj fields, k => .ok (fields.reverse.lookup k)
  | _, _ => .error .attributeError

def jHasKey (fields : List (String × JValue)) (k : String) : Bool :=
  fields.any (fun kv => kv.1 = k)

/-- `payload[k] = v` on a dict: rebind the key or append the binding.  The
code only assigns to values it has already `.get` from, so the receiver is
a dict on every modelled path. -/
def jSet (v : JValue) (k : String) (x : JValue) : JValue :=
  match v with
  | .jobj fields =>
    .jobj (if jHasKey fields k then fields.map (fun kv => if kv.1 = k then (k, x) else kv)
           else fields ++ [(k, x)])
  | other => other

/-- `date.fromisoformat` with ISO date strings abstracted to decimal
ordinal renderings (parse failure, the caught `ValueError`, is `none`); no
claimed behaviour depends on the textual calendar format. -/
def dateFromStr (s : String) : Option Int :=
  pyIntChars s.data

/-- `datetime.fromisoformat` under the same abstraction. -/
def dtFromStr (s : String) : Option LocalDT :=
  (pyIntChars s.data).map (fun n => ⟨n, 0, 0⟩)

/-- `_parse_datetime` (lines 380-389) on a raw value: falsy values yield
`None`; a truthy non-string raises `TypeError` from
`datetime.fromisoformat`; a truthy string parses or yields `None` (the
caught `ValueError`). -/
def jParseDatetime (v : JValue) : Except PyExc (Option LocalDT) :=
  if ¬ jTruthy v then .ok none
  else match v with
    | .jstr s => .ok (dtFromStr s)
    | _ => .error .typeError

/-- `tuple(x)`: iterate a raw value; non-iterables raise `TypeError`. -/
def jTuple : JValue → Except PyExc (List JValue)
  | .jarr items => .ok items
  | .jstr s => .ok (s.data.map (fun c => .jstr (String.mk [c])))
  | .jobj fields => .ok (fields.map (fun kv => .jstr kv.1))
  | _ => .error .typeError

/-- `_serialize_day` rendered to JSON for persistence. -/
def jSerializeDay (target_date : Int) (holidays : List String) (fetched_at : LocalDT) : JValue :=
  .jobj [("date", .jstr (toString target_date)),
         ("holidays", .jarr (holidays.map .jstr)),
         ("fetched_at", .jstr (toString fetched_at.dateOrd)),
         ("source_url", .jstr CALEND_RU_URL)]

/-- `_default_payload` (lines 348-355). -/
def jDefaultPayload (autopost_time : String) (now : LocalDT) : JValue :=
  .jobj [("autopost_time", .jstr autopost_time),
         ("updated_at", .jstr (toString now.dateOrd)),
         ("today", jSerializeDay now.dateOrd [] now),
         ("tomorrow", jSerializeDay (now.dateOrd + 1) [] now)]

/-- The possible states of the cache file as `_load_or_init_payload` reads
it: absent, unreadable (`OSError`), undecodable (`JSONDecodeError`), or
decoded to a JSON value. -/
inductive CacheFile where
  | absent
  | unreadable
  | undecodable
  | decoded (v : JValue)

/-- `_load_or_init_payload` (lines 327-345): an absent, unreadable or
undecodable file is replaced by the default document (the caught
`JSONDecodeError`/`OSError`); then missing-or-falsy `autopost_time`,
`today` and `tomorrow` fields are filled in and the document is written
back (`_write_payload`; the returned flag records that the write ran).
`date.today()` and `_normalize_now(None)` are both the ambient `now`. -/
def _load_or_init_payload (file : CacheFile) (default_autopost_time : String) (now : LocalDT) :
    Except PyExc (JValue × Bool) := do
  let payload :=
    match file with
    | .absent | .unreadable | .undecodable => jDefaultPayload default_autopost_time now
    | .decoded v => v
  let ap ← jGet payload "autopost_time"
  let payload :=
    if ¬ jTruthy (ap.getD .jnull) then jSet payload "autopost_time" (.jstr default_autopost_time)
    else payload
  let td ← jGet payload "today"
  let payload :=
    if ¬ jTruthy (td.getD .jnull) then jSet payload "today" (jSerializeDay now.dateOrd [] now)
    else payload
  let tm ← jGet payload "tomorrow"
  let payload :=
    if ¬ jTruthy (tm.getD .jnull) then
      jSet payload "tomorrow" (jSerializeDay (now.dateOrd + 1) [] now)
    else payload
  pure (payload, true)

/-- The `_payload_entry_to_result` call made by `initialize_holiday_cache`
(line 104), at the raw layer.  The constructed `HolidayResult` is only
stored into the write-only module global `_cached_result`, so the model
records whether the construction yields a result or raises. -/
def jEntryToResult (entry : JValue) : Except PyExc (Option Unit) := do
  let rawDate ← jGet entry "date"
  let rawDate := rawDate.getD .jnull
  if ¬ jTruthy rawDate then pure none
  else match rawDate with
    | .jstr s =>
      match dateFromStr s with
      | none => pure none
      | some _ => do
        let rawHol ← jGet entry "holidays"
        let _ ← (match rawHol with
                 | none => Except.ok []
                 | some v => jTuple v)
        let rawF ← jGet entry "fetched_at"
        let _ ← jParseDatetime (rawF.getD .jnull)
        let _ ← jGet entry "source_url"
        pure (some ())
    | _ => throw .typeError

/-- `initialize_holiday_cache` (lines 98-107) at the raw layer: bind the
file, load-or-init, then build the result of the fresh `today` entry for
the write-only `_cached_result` global. -/
def initialize_holiday_cache (file : CacheFile) (default_autopost_time : String)
    (now : LocalDT) : Except PyExc (JValue × Bool) := do
  let (payload, wrote) ← _load_or_init_payload file default_autopost_time now
  let entry ← jGet payload "today"
  let _ ← jEntryToResult (entry.getD (.jobj []))
  pure (payload, wrote)

/-! ## Concurrency model of `refresh_holiday_cache` (lines 91-96, 199-248)

Each coroutine calling `refresh_holiday_cache` executes, in order: acquire
`_refresh_lock` (blocking while it is held), one network fetch (`await
_download_html`), one parse and full-document write (`_write_payload`),
then release the lock and return the result it built from the document it
just wrote.  The asyncio scheduler interleaves coroutines at the await
points; a schedule is the list of task indices picked at successive steps.
A task picked when it cannot progress (blocked on the held lock, or
already finished) does nothing.  On completion a task records the number
of document writes it observes — its view of the cache at return time. -/

inductive RTask where
  | idle
  | locked
  | fetchDone
  | writeDone
  | finished
deriving DecidableEq, Repr

/-- Whether a task is inside the `async with _refresh_lock` block. -/
def RTask.inCS : RTask → Bool
  | .locked | .fetchDone | .writeDone => true
  | _ => false

/-- Whether a task has performed its network fetch. -/
def RTask.hasFetched : RTask → Bool
  | .fetchDone | .writeDone | .finished => true
  | _ => false

/-- Whether a task has performed its document write. -/
def RTask.hasWritten : RTask → Bool
  | .writeDone | .finished => true
  | _ => false

structure RefreshSys where
  tasks : List RTask
  lockHeld : Bool
  fetches : Nat
  writes : Nat
  observations : List (Option Nat)
deriving DecidableEq, Repr

/-- `n` concurrent calls to `refresh_holiday_cache` issued at the same
moment. -/
def rinit (n : Nat) : RefreshSys :=
  { tasks := List.replicate n .idle, lockHeld := false, fetches := 0, writes := 0,
    observations := List.replicate n none }

def rstep (s : RefreshSys) (i : Nat) : RefreshSys :=
  match s.tasks[i]? with
  | none => s
  | some .idle =>
    if s.lockHeld then s
    else { s with tasks := s.tasks.set i .locked, lockHeld := true }
  | some .locked =>
    { s with tasks := s.tasks.set i .fetchDone, fetches := s.fetches + 1 }
  | some .fetchDone =>
    { s with tasks := s.tasks.set i .writeDone, writes := s.writes + 1 }
  | some .writeDone =>
    { s with tasks := s.tasks.set i .finished, lockHeld := false,
             observations := s.observations.set i (some s.writes) }
  | some .finished => s

def rrun (s : RefreshSys) : List Nat → RefreshSys
  | [] => s
  | i :: rest => rrun (rstep s i) rest

/-- Tasks currently inside the critical section. -/
def csCount (s : RefreshSys) : Nat :=
  s.tasks.countP (fun t => t.inCS)

/-- The inductive invariant of the refresh concurrency model: mutual
exclusion (at most one task between lock acquisition and release, none
when the lock is free), the fetch and write counters agree with the tasks
that performed them, and every finished task observed a cache on which at
least one document write (its own) had completed. -/
def RefreshInv (n : Nat) (s : RefreshSys) : Prop :=
  s.tasks.length = n ∧
  s.observations.length = n ∧
  csCount s ≤ 1 ∧
  (s.lockHeld = false → csCount s = 0) ∧
  s.fetches = s.tasks.countP (fun t => t.hasFetched) ∧
  s.writes = s.tasks.countP (fun t => t.hasWritten) ∧
  (∀ i : Nat, s.tasks[i]? = some .finished →
     ∃ v, s.observations[i]? = some (some v) ∧ 1 ≤ v)

end HolidayBot

deriving instance DecidableEq for Except

namespace HolidayBot

/-! ## Lemmas about `_normalize_time` -/

/-- On a canonical zero-padded `HH:MM` string in range, `_normalize_time`
returns the very same string. -/
theorem normalize_time_canon : ∀ h : Nat, h < 24 → ∀ m : Nat, m < 60 →
    _normalize_time (pad2 h ++ ":" ++ pad2 m) = .ok (pad2 h ++ ":" ++ pad2 m) := by
  decide

/-- Every successful output of `_normalize_time` is a zero-padded in-range
`HH:MM` string. -/
theorem normalize_time_ok_shape (s r : String) (h : _normalize_time s = .ok r) :
    ∃ hi mi : Nat, hi < 24 ∧ mi < 60 ∧ r = pad2 hi ++ ":" ++ pad2 mi := by
  simp only [_normalize_time] at h
  split at h
  · exact absurd h (by simp)
  · split at h
    · split at h
      · split at h
        · rename_i hourInt minuteInt heq1 heq2 hrange
          refine ⟨hourInt.toNat, minuteInt.toNat, by omega, by omega, ?_⟩
          exact (Except.ok.inj h).symm
        · exact absurd h (by simp)
      · exact absurd h (by simp)
    · exact absurd h (by simp)

theorem normalize_time_nonempty_of_two_parts (s : String) (a b : List Char)
    (hsp : splitColon (pyStrip s).data = [a, b]) : ¬ pyStrip s = "" := by
  intro hz
  rw [hz] at hsp
  simp [splitColon] at hsp

theorem splitColon_length (l : List Char) :
    (splitColon l).length = l.countP (fun c => c == ':') + 1 := by
  induction l with
  | nil => simp [splitColon]
  | cons c t ih =>
    by_cases hc : c = ':'
    · simp [splitColon, hc, List.countP_cons, ih]
    · have hne : (c == ':') = false := by simp [hc]
      rcases hsp : splitColon t with _ | ⟨h0, r⟩
      · simp [hsp] at ih
      · simp [splitColon, hc, List.countP_cons, hne, hsp] at ih ⊢
        omega

/-- C5: time normalization.  (1) Every strictly shaped `HH:MM` string with
hour 0-23 and minute 0-59 (i.e. every zero-padded two-digit rendering) is
returned unchanged, hence the output is zero-padded.  (2) `_normalize_time`
is idempotent on every successful output.  (3) An input whose stripped form
does not contain exactly one `":"` separator fails validation.  (4) An
input either of whose two fields is not `int`-parsable fails validation.
(5) An out-of-range hour or minute fails validation with the descriptive
range message.  (6) The empty string fails validation with the descriptive
format message. -/
theorem normalize_time_spec :
    (∀ h : Nat, h < 24 → ∀ m : Nat, m < 60 →
        _normalize_time (pad2 h ++ ":" ++ pad2 m) = .ok (pad2 h ++ ":" ++ pad2 m)) ∧
    (∀ s r : String, _normalize_time s = .ok r → _normalize_time r = .ok r) ∧
    (∀ s : String, (pyStrip s).data.countP (fun c => c == ':') ≠ 1 →
        ∃ e, _normalize_time s = .error e) ∧
    (∀ s : String, ∀ a b : List Char, splitColon (pyStrip s).data = [a, b] →
        pyIntChars a = none ∨ pyIntChars b = none →
        ∃ e, _normalize_time s = .error e) ∧
    (∀ s : String, ∀ a b : List Char, ∀ hi mi : Int,
        splitColon (pyStrip s).data = [a, b] →
        pyIntChars a = some hi → pyIntChars b = some mi →
        ¬(0 ≤ hi ∧ hi ≤ 23 ∧ 0 ≤ mi ∧ mi ≤ 59) →
        _normalize_time s = .error timeRangeMsg) ∧
    _normalize_time "" = .error timeFormatMsg := by
  refine ⟨normalize_time_canon, ?_, ?_, ?_, ?_, rfl⟩
  · intro s r h
    obtain ⟨hi, mi, hhi, hmi, rfl⟩ := normalize_time_ok_shape s r h
    exact normalize_time_canon hi hhi mi hmi
  · intro s hc
    by_cases hz : pyStrip s = ""
    · exact ⟨timeFormatMsg, by simp [_normalize_time, hz]⟩
    · rcases hsp : splitColon (pyStrip s).data with _ | ⟨a, rest⟩
      · have hlen := splitColon_length (pyStrip s).data
        rw [hsp] at hlen
        simp at hlen
      · rcases rest with _ | ⟨b, rest2⟩
        · exact ⟨timeFormatMsg, by simp [_normalize_time, hz, hsp]⟩
        · rcases rest2 with _ | ⟨c, rest3⟩
          · have hlen := splitColon_length (pyStrip s).data
            rw [hsp] at hlen
            simp at hlen
            omega
          · exact ⟨timeFormatMsg, by simp [_normalize_time, hz, hsp]⟩
  · intro s a b hsp hnone
    have hz := normalize_time_nonempty_of_two_parts s a b hsp
    rcases hA : pyIntChars a with _ | va
    · exact ⟨timeFormatMsg, by simp [_normalize_time, hz, hsp, hA]⟩
    · rcases hB : pyIntChars b with _ | vb
      · exact ⟨timeFormatMsg, by simp [_normalize_time, hz, hsp, hA, hB]⟩
      · rcases hnone with h1 | h1
        · rw [hA] at h1
          exact absurd h1 (by simp)
        · rw [hB] at h1
          exact absurd h1 (by simp)
  · intro s a b hi mi hsp hA hB hrange
    have hz := normalize_time_nonempty_of_two_parts s a b hsp
    simp [_normalize_time, hz, hsp, hA, hB, hrange]

/-- Witness for `normalize_time_spec` at concrete inputs. -/
theorem normalize_time_spec_witness :
    _normalize_time (pad2 7 ++ ":" ++ pad2 5) = .ok (pad2 7 ++ ":" ++ pad2 5) ∧
    _normalize_time "09:30" = .ok "09:30" ∧
    (∃ e, _normalize_time "0705" = .error e) ∧
    (∃ e, _normalize_time "aa:bb" = .error e) ∧
    _normalize_time "24:00" = .error timeRangeMsg ∧
    _normalize_time "" = .error timeFormatMsg :=
  ⟨normalize_time_spec.1 7 (by decide) 5 (by decide),
   normalize_time_spec.2.1 "9:30" "09:30" rfl,
   normalize_time_spec.2.2.1 "0705" (by decide),
   normalize_time_spec.2.2.2.1 "aa:bb" ['a', 'a'] ['b', 'b'] rfl (Or.inl rfl),
   normalize_time_spec.2.2.2.2.1 "24:00" ['2', '4'] ['0', '0'] 24 0 rfl rfl rfl (by decide),
   normalize_time_spec.2.2.2.2.2⟩

/-! ## Lemmas about the cache store and the refresh coordinator -/

theorem entry_to_result_of_date (wallNow : LocalDT) (e : Entry) (d : Int)
    (hd : e.date = some d) :
    ∃ r, _payload_entry_to_result wallNow e = some r ∧ r.date = d ∧
      r.holidays = e.holidays ∧
      r.error = (if e.holidays.isEmpty then some noHolidaysMsg else none) := by
  unfold _payload_entry_to_result
  rw [hd]
  exact ⟨_, rfl, rfl, rfl, rfl⟩

/-- C6: `get_cached_holiday_result(d)` hits exactly when one of the two
stored slots carries the stored date `d` (a query matching neither slot is
a miss, not an error), and a hit with an empty holiday list carries the
synthetic no-holidays annotation while a hit with a non-empty list carries
no annotation. -/
theorem get_cached_slot_spec (wallNow : LocalDT) (p : Payload) (d : Int) :
    ((get_cached_holiday_result wallNow p d).isSome ↔
       slotDate p.today = some d ∨ slotDate p.tomorrow = some d) ∧
    (∀ r, get_cached_holiday_result wallNow p d = some r →
       r.date = d ∧
       (r.holidays = [] → r.error = some noHolidaysMsg) ∧
       (r.holidays ≠ [] → r.error = none)) := by
  have main : ∀ (e : Entry), e.date = some d →
      ∀ r, _payload_entry_to_result wallNow e = some r →
        r.date = d ∧ (r.holidays = [] → r.error = some noHolidaysMsg) ∧
        (r.holidays ≠ [] → r.error = none) := by
    intro e hd r hr
    obtain ⟨r2, hr2, hrd, hrh, hre⟩ := entry_to_result_of_date wallNow e d hd
    rw [hr2] at hr
    cases hr
    refine ⟨hrd, ?_, ?_⟩
    · intro hemp
      rw [hre, if_pos]
      rw [List.isEmpty_iff, ← hrh]
      exact hemp
    · intro hne
      rw [hre, if_neg]
      rw [List.isEmpty_iff, ← hrh]
      exact hne
  by_cases h1 : slotDate p.today = some d
  · obtain ⟨r, hr, _, _, _⟩ := entry_to_result_of_date wallNow (effEntry p.today) d h1
    constructor
    · simp [get_cached_holiday_result, h1, hr]
    · intro r2 h2
      rw [get_cached_holiday_result, if_pos h1] at h2
      exact main (effEntry p.today) h1 r2 h2
  · by_cases h2 : slotDate p.tomorrow = some d
    · obtain ⟨r, hr, _, _, _⟩ := entry_to_result_of_date wallNow (effEntry p.tomorrow) d h2
      constructor
      · simp [get_cached_holiday_result, h1, h2, hr]
      · intro r2 h3
        rw [get_cached_holiday_result, if_neg h1, if_pos h2] at h3
        exact main (effEntry p.tomorrow) h2 r2 h3
    · constructor
      · simp [get_cached_holiday_result, h1, h2]
      · intro r2 h3
        rw [get_cached_holiday_result, if_neg h1, if_neg h2] at h3
        exact absurd h3 (by simp)

/-- Witness for `get_cached_slot_spec`: a document whose `today` slot
stores date 5 with an empty holiday list. -/
theorem get_cached_slot_spec_witness :
    ({ date := 5, holidays := [], source_url := CALEND_RU_URL,
       fetched_at := ⟨0, 0, 0⟩, error := some noHolidaysMsg } : HolidayResult).date = (5 : Int) ∧
    (({ date := 5, holidays := [], source_url := CALEND_RU_URL,
        fetched_at := ⟨0, 0, 0⟩, error := some noHolidaysMsg } : HolidayResult).holidays = [] →
      ({ date := 5, holidays := [], source_url := CALEND_RU_URL,
         fetched_at := ⟨0, 0, 0⟩, error := some noHolidaysMsg } : HolidayResult).error =
        some noHolidaysMsg) ∧
    (({ date := 5, holidays := [], source_url := CALEND_RU_URL,
        fetched_at := ⟨0, 0, 0⟩, error := some noHolidaysMsg } : HolidayResult).holidays ≠ [] →
      ({ date := 5, holidays := [], source_url := CALEND_RU_URL,
         fetched_at := ⟨0, 0, 0⟩, error := some noHolidaysMsg } : HolidayResult).error = none) :=
  (get_cached_slot_spec ⟨0, 0, 0⟩
      { today := some { date := some 5 } } 5).2 _ rfl

theorem refreshCore_dates (p : Payload) (moment : LocalDT) (events : List HtmlEvent) :
    slotDate (refreshCore p moment events).1.today =
      some (if moment.hour == 23 && decide (45 ≤ moment.minute) then moment.dateOrd + 1
            else moment.dateOrd) ∧
    slotDate (refreshCore p moment events).1.tomorrow =
      some (if moment.hour == 23 && decide (45 ≤ moment.minute) then moment.dateOrd + 2
            else moment.dateOrd + 1) := by
  by_cases h : (moment.hour == 23 && decide (45 ≤ moment.minute)) = true
  · simp [refreshCore, h, slotDate, effEntry, _serialize_day]
  · simp only [Bool.not_eq_true] at h
    simp [refreshCore, h, slotDate, effEntry, _serialize_day]

/-- C3: the day-boundary rule.  After a successful `refresh_holiday_cache`
at Moscow-local `now`, if `now` is strictly before 23:45 the stored `today`
slot carries `now`'s date and `tomorrow` its successor; at or after 23:45
the `today` slot carries `now`'s date + 1 and `tomorrow` carries + 2. -/
theorem refresh_day_boundary (p : Payload) (now : LocalDT) (events : List HtmlEvent)
    (p2 : Payload) (r : Option HolidayResult) (hh : now.hour < 24)
    (hrun : refresh_holiday_cache p now (.ok events) = .ok (p2, r)) :
    ((now.hour < 23 ∨ (now.hour = 23 ∧ now.minute < 45)) →
       slotDate p2.today = some now.dateOrd ∧
       slotDate p2.tomorrow = some (now.dateOrd + 1)) ∧
    (¬(now.hour < 23 ∨ (now.hour = 23 ∧ now.minute < 45)) →
       slotDate p2.today = some (now.dateOrd + 1) ∧
       slotDate p2.tomorrow = some (now.dateOrd + 2)) := by
  have hcore : refreshCore p now events = (p2, r) := by
    simpa [refresh_holiday_cache] using hrun
  have hdates := refreshCore_dates p now events
  rw [hcore] at hdates
  constructor
  · intro hbefore
    have hb : (now.hour == 23 && decide (45 ≤ now.minute)) = false := by
      rcases hbefore with h | ⟨h1, h2⟩
      · have hne : now.hour ≠ 23 := by omega
        simp [hne]
      · have hlt : ¬ (45 ≤ now.minute) := by omega
        simp [h1, hlt]
    rw [hb] at hdates
    simpa using hdates
  · intro hafter
    have h23 : now.hour = 23 ∧ 45 ≤ now.minute := by
      by_contra hcon
      apply hafter
      omega
    have hb : (now.hour == 23 && decide (45 ≤ now.minute)) = true := by
      simp [h23.1, h23.2]
    rw [hb] at hdates
    simpa using hdates

/-- Witness for `refresh_day_boundary` at a concrete pre-cutoff instant
(date ordinal 10, 12:00) and a concrete post-cutoff instant (23:50). -/
theorem refresh_day_boundary_witness :
    (slotDate (refreshCore {} ⟨10, 12, 0⟩ []).1.today = some 10 ∧
     slotDate (refreshCore {} ⟨10, 12, 0⟩ []).1.tomorrow = some 11) ∧
    (slotDate (refreshCore {} ⟨10, 23, 50⟩ []).1.today = some 11 ∧
     slotDate (refreshCore {} ⟨10, 23, 50⟩ []).1.tomorrow = some 12) :=
  ⟨(refresh_day_boundary {} ⟨10, 12, 0⟩ [] _ _ (by decide) rfl).1 (Or.inl (by decide)),
   (refresh_day_boundary {} ⟨10, 23, 50⟩ [] _ _ (by decide) rfl).2 (by decide)⟩

theorem refreshCore_result (p : Payload) (moment : LocalDT) (events : List HtmlEvent) :
    ∃ r, (refreshCore p moment events).2 = some r := by
  have h1 : ∀ td hs, ∃ r, _payload_entry_to_result moment (_serialize_day td hs moment) = some r := by
    intro td hs
    obtain ⟨r, hr, _⟩ := entry_to_result_of_date moment (_serialize_day td hs moment) td rfl
    exact ⟨r, hr⟩
  by_cases h : (moment.hour == 23 && decide (45 ≤ moment.minute)) = true
  · simpa [refreshCore, h] using h1 _ _
  · simp only [Bool.not_eq_true] at h
    simpa [refreshCore, h] using h1 _ _

/-- C4: the fallback chain of `get_today_holidays`.  The function is a
total state transformer — exceptions of the underlying fetch are the
`Except.error` case of `fetch` and are caught inside, so no exception
reaches the caller — and its result is, in priority order: the served
cache hit when `force_refresh` is unset and the target date is cached;
otherwise (a) the freshly refreshed result when the fetch succeeds,
(b) the still-cached slot re-served with the stale-cache annotation when
the fetch fails but the slot is present, (c) the synthetic empty
fetch-failed result when neither is available. -/
theorem get_today_holidays_fallback (p : Payload) (now : LocalDT) (force_refresh : Bool)
    (fetch : Except String (List HtmlEvent)) :
    (∀ c, force_refresh = false →
        get_cached_holiday_result now p now.dateOrd = some c →
        get_today_holidays p now force_refresh fetch = (p, c)) ∧
    ((force_refresh = true ∨ get_cached_holiday_result now p now.dateOrd = none) →
      (∀ events, fetch = .ok events →
        ∃ r, (refreshCore p now events).2 = some r ∧
          get_today_holidays p now force_refresh fetch = ((refreshCore p now events).1, r)) ∧
      (∀ e, fetch = .error e →
        (∀ c, get_cached_holiday_result now p now.dateOrd = some c →
            get_today_holidays p now force_refresh fetch = (p, staleCopy c)) ∧
        (get_cached_holiday_result now p now.dateOrd = none →
            get_today_holidays p now force_refresh fetch =
              (p, fallbackResult now.dateOrd now)))) := by
  constructor
  · intro c hf hc
    simp [get_today_holidays, hf, hc]
  · intro hmiss
    have h0 : (if force_refresh then none
               else get_cached_holiday_result now p now.dateOrd) = none := by
      rcases hmiss with hf | hc
      · simp [hf]
      · by_cases hf : force_refresh <;> simp [hf, hc]
    constructor
    · intro events hfetch
      subst hfetch
      obtain ⟨r, hr⟩ := refreshCore_result p now events
      refine ⟨r, hr, ?_⟩
      rcases hRC : refreshCore p now events with ⟨p2, r2⟩
      rw [hRC] at hr
      simp only at hr
      subst hr
      simp [get_today_holidays, h0, refresh_holiday_cache, hRC]
    · intro e hfetch
      subst hfetch
      constructor
      · intro c hc
        have hf : force_refresh = true := by
          rcases hmiss with hf | hnone
          · exact hf
          · rw [hnone] at hc
            cases hc
        simp [get_today_holidays, hf, refresh_holiday_cache, hc]
      · intro hc
        simp [get_today_holidays, h0, refresh_holiday_cache, hc]

/-- Witness for `get_today_holidays_fallback`: with an empty document and a
failing fetch, the call still returns — the synthetic annotated result. -/
theorem get_today_holidays_fallback_witness :
    get_today_holidays {} ⟨0, 9, 0⟩ false (.error "network down") =
      ({}, fallbackResult 0 ⟨0, 9, 0⟩) :=
  (((get_today_holidays_fallback {} ⟨0, 9, 0⟩ false (.error "network down")).2
      (Or.inr rfl)).2 "network down" rfl).2 rfl

/-- C9: `update_autopost_time` is a frame-preserving no-op when the
normalized value equals the stored one (no document write, no autopost
signal, document unchanged); on a differing value it rewrites the document
changing only the `autopost_time` field and signals the autopost event. -/
theorem update_autopost_time_frame (p : Payload) (value normalized : String)
    (hn : _normalize_time value = .ok normalized) :
    (p.autopost_time = some normalized →
       update_autopost_time p value =
         .ok { payload := p, wrote := false, signaled := false, returned := normalized }) ∧
    (p.autopost_time ≠ some normalized →
       update_autopost_time p value =
         .ok { payload := { p with autopost_time := some normalized },
               wrote := true, signaled := true, returned := normalized }) := by
  constructor <;> intro h <;>
    simp [update_autopost_time, hn, h, Except.bind, bind, pure, Except.pure]

/-- Witness for `update_autopost_time_frame`: storing `08:30`, setting
`8:30` again is a silent no-op; setting it on an empty document writes and
signals. -/
theorem update_autopost_time_frame_witness :
    update_autopost_time { autopost_time := some "08:30" } "8:30" =
      .ok { payload := { autopost_time := some "08:30" },
            wrote := false, signaled := false, returned := "08:30" } ∧
    update_autopost_time {} "8:30" =
      .ok { payload := { autopost_time := some "08:30" },
            wrote := true, signaled := true, returned := "08:30" } :=
  ⟨(update_autopost_time_frame { autopost_time := some "08:30" } "8:30" "08:30" rfl).1 rfl,
   (update_autopost_time_frame {} "8:30" "08:30" rfl).2 (by simp)⟩

/-! ## Message digest lemmas -/

theorem joinNL_append_two (L : List String) (x y : String) (hL : L ≠ []) :
    joinNL (L ++ [x, y]) = joinNL L ++ "\n" ++ x ++ "\n" ++ y := by
  induction L with
  | nil => cases hL rfl
  | cons a t ih =>
    cases t with
    | nil => simp [joinNL, String.append_assoc]
    | cons b u =>
      have hrec := ih (by simp)
      simp only [List.cons_append] at hrec ⊢
      simp only [joinNL, hrec, String.append_assoc]

theorem append_nl_empty_nl (A e : String) :
    A ++ "\n" ++ "" ++ "\n" ++ e = A ++ "\n\n" ++ e := by
  rw [String.append_empty, String.append_assoc A "\n" "\n"]
  rfl

/-- C10: with an empty holiday list the digest is the fixed
no-holidays string and the error annotation is dropped even when set; the
trailing annotation line is appended exactly when the list is non-empty
and an annotation is present. -/
theorem digest_empty_overrides_error (result : HolidayResult) (limit : Nat) :
    (result.holidays = [] → format_holidays_digest result limit = noHolidaysTodayMsg) ∧
    (result.holidays ≠ [] → ∀ e, result.error = some e →
       format_holidays_digest result limit =
         format_holidays_digest { result with error := none } limit ++ "\n\n" ++ e) := by
  constructor
  · intro h
    simp [format_holidays_digest, h]
  · intro h e he
    simp only [format_holidays_digest, h, he, if_neg]
    rw [joinNL_append_two _ "" e ?hne]
    · exact append_nl_empty_nl _ e
    case hne =>
      split <;> simp

/-- Witness for `digest_empty_overrides_error` at concrete results. -/
theorem digest_empty_overrides_error_witness :
    format_holidays_digest
      { date := 0, holidays := [], source_url := "", fetched_at := ⟨0, 0, 0⟩,
        error := some "E" } 10 = noHolidaysTodayMsg ∧
    format_holidays_digest
      { date := 0, holidays := ["Праздник"], source_url := "", fetched_at := ⟨0, 0, 0⟩,
        error := some "E" } 10 =
      format_holidays_digest
        { date := 0, holidays := ["Праздник"], source_url := "", fetched_at := ⟨0, 0, 0⟩,
          error := none } 10 ++ "\n\n" ++ "E" :=
  ⟨(digest_empty_overrides_error
      { date := 0, holidays := [], source_url := "", fetched_at := ⟨0, 0, 0⟩,
        error := some "E" } 10).1 rfl,
   (digest_empty_overrides_error
      { date := 0, holidays := ["Праздник"], source_url := "", fetched_at := ⟨0, 0, 0⟩,
        error := some "E" } 10).2 (by simp) "E" rfl⟩

/-! ## C8: initialization robustness, evaluated -/

/-- C8: an absent, unreadable or JSON-undecodable cache file is recovered:
the default document (empty today/tomorrow slots, the supplied autopost
time) is synthesized, written back immediately (the `true` flag is the
`_write_payload` call), and the resulting document has `autopost_time` and
both slots present and populated.  But the claim's "for every file
content, initialize never fails fatally" is false at the file whose
content is the valid JSON text `[]`: it decodes, so the corrupt-file
recovery path is skipped, and `payload.get("autopost_time")` raises an
uncaught `AttributeError`. -/
theorem initialize_cache_robustness_check :
    initialize_holiday_cache (.decoded (.jarr [])) "09:00" ⟨0, 0, 0⟩ = .error .attributeError ∧
    initialize_holiday_cache .absent "09:00" ⟨0, 0, 0⟩ =
      .ok (jDefaultPayload "09:00" ⟨0, 0, 0⟩, true) ∧
    initialize_holiday_cache .unreadable "09:00" ⟨0, 0, 0⟩ =
      .ok (jDefaultPayload "09:00" ⟨0, 0, 0⟩, true) ∧
    initialize_holiday_cache .undecodable "09:00" ⟨0, 0, 0⟩ =
      .ok (jDefaultPayload "09:00" ⟨0, 0, 0⟩, true) ∧
    jGet (jDefaultPayload "09:00" ⟨0, 0, 0⟩) "autopost_time" = .ok (some (.jstr "09:00")) ∧
    jTruthy (.jstr "09:00") = true ∧
    jGet (jDefaultPayload "09:00" ⟨0, 0, 0⟩) "today" =
      .ok (some (jSerializeDay 0 [] ⟨0, 0, 0⟩)) ∧
    jTruthy (jSerializeDay 0 [] ⟨0, 0, 0⟩) = true ∧
    jGet (jDefaultPayload "09:00" ⟨0, 0, 0⟩) "tomorrow" =
      .ok (some (jSerializeDay 1 [] ⟨0, 0, 0⟩)) ∧
    jTruthy (jSerializeDay 1 [] ⟨0, 0, 0⟩) = true :=
  ⟨rfl, rfl, rfl, rfl, rfl, rfl, rfl, rfl, rfl, rfl⟩

/-! ## Concurrency: invariants of the refresh model -/

theorem countP_set_val (p : RTask → Bool) (l : List RTask) (i : Nat) (a t : RTask)
    (hi : i < l.length) (ht : l[i] = t) (da db : Nat)
    (hda : (if p t then 1 else 0) = da) (hdb : (if p a then 1 else 0) = db) :
    (l.set i a).countP p = l.countP p - da + db := by
  rw [List.countP_set _ _ _ _ hi, ht, hda, hdb]

theorem rstep_inv (n : Nat) (s : RefreshSys) (i : Nat) (h : RefreshInv n s) :
    RefreshInv n (rstep s i) := by
  obtain ⟨hlen, holen, hcs, hlock, hfet, hwrt, hobs⟩ := h
  unfold csCount at hcs hlock
  rcases hget : s.tasks[i]? with _ | t
  · have hs : rstep s i = s := by simp [rstep, hget]
    rw [hs]
    exact ⟨hlen, holen, hcs, hlock, hfet, hwrt, hobs⟩
  have hi : i < s.tasks.length := by
    by_contra hcon
    rw [List.getElem?_eq_none (Nat.le_of_not_lt hcon)] at hget
    cases hget
  have hio : i < s.observations.length := by omega
  have htval : s.tasks[i] = t := by
    rw [List.getElem?_eq_getElem hi] at hget
    exact Option.some.inj hget
  have hmem : t ∈ s.tasks := htval ▸ List.getElem_mem hi
  have hpos : ∀ (p : RTask → Bool), p t = true → 0 < s.tasks.countP p := fun p hp =>
    List.countP_pos_iff.mpr ⟨t, hmem, hp⟩
  have hobsKeep : ∀ (a : RTask), a ≠ .finished →
      ∀ j : Nat, (s.tasks.set i a)[j]? = some .finished →
        ∃ v, s.observations[j]? = some (some v) ∧ 1 ≤ v := by
    intro a ha j hj
    by_cases hij : i = j
    · subst hij
      rw [List.getElem?_set_self hi] at hj
      exact absurd (Option.some.inj hj) ha
    · rw [List.getElem?_set_ne hij] at hj
      exact hobs j hj
  cases t with
  | idle =>
    by_cases hL : s.lockHeld = true
    · have hs : rstep s i = s := by simp [rstep, hget, hL]
      rw [hs]
      exact ⟨hlen, holen, hcs, hlock, hfet, hwrt, hobs⟩
    · have hL' : s.lockHeld = false := by simpa using hL
      have hcs0 := hlock hL'
      simp only [rstep, hget, hL', Bool.false_eq_true, if_false]
      refine ⟨by simpa using hlen, holen, ?_, ?_, ?_, ?_, hobsKeep .locked (by decide)⟩
      · show (s.tasks.set i .locked).countP (fun t => t.inCS) ≤ 1
        rw [countP_set_val (fun t => t.inCS) s.tasks i .locked .idle hi htval 0 1 rfl rfl]
        omega
      · intro habs
        simp at habs
      · show s.fetches = (s.tasks.set i .locked).countP (fun t => t.hasFetched)
        rw [countP_set_val (fun t => t.hasFetched) s.tasks i .locked .idle hi htval 0 0 rfl rfl]
        omega
      · show s.writes = (s.tasks.set i .locked).countP (fun t => t.hasWritten)
        rw [countP_set_val (fun t => t.hasWritten) s.tasks i .locked .idle hi htval 0 0 rfl rfl]
        omega
  | locked =>
    have hposCS : 0 < s.tasks.countP (fun t => t.inCS) := hpos _ rfl
    simp only [rstep, hget]
    refine ⟨by simpa using hlen, holen, ?_, ?_, ?_, ?_, hobsKeep .fetchDone (by decide)⟩
    · show (s.tasks.set i .fetchDone).countP (fun t => t.inCS) ≤ 1
      rw [countP_set_val (fun t => t.inCS) s.tasks i .fetchDone .locked hi htval 1 1 rfl rfl]
      omega
    · intro hL'
      have := hlock hL'
      show (s.tasks.set i .fetchDone).countP (fun t => t.inCS) = 0
      rw [countP_set_val (fun t => t.inCS) s.tasks i .fetchDone .locked hi htval 1 1 rfl rfl]
      omega
    · show s.fetches + 1 = (s.tasks.set i .fetchDone).countP (fun t => t.hasFetched)
      rw [countP_set_val (fun t => t.hasFetched) s.tasks i .fetchDone .locked hi htval 0 1 rfl rfl]
      omega
    · show s.writes = (s.tasks.set i .fetchDone).countP (fun t => t.hasWritten)
      rw [countP_set_val (fun t => t.hasWritten) s.tasks i .fetchDone .locked hi htval 0 0 rfl rfl]
      omega
  | fetchDone =>
    have hposCS : 0 < s.tasks.countP (fun t => t.inCS) := hpos _ rfl
    have hposF : 0 < s.tasks.countP (fun t => t.hasFetched) := hpos _ rfl
    simp only [rstep, hget]
    refine ⟨by simpa using hlen, holen, ?_, ?_, ?_, ?_, hobsKeep .writeDone (by decide)⟩
    · show (s.tasks.set i .writeDone).countP (fun t => t.inCS) ≤ 1
      rw [countP_set_val (fun t => t.inCS) s.tasks i .writeDone .fetchDone hi htval 1 1 rfl rfl]
      omega
    · intro hL'
      have := hlock hL'
      show (s.tasks.set i .writeDone).countP (fun t => t.inCS) = 0
      rw [countP_set_val (fun t => t.inCS) s.tasks i .writeDone .fetchDone hi htval 1 1 rfl rfl]
      omega
    · show s.fetches = (s.tasks.set i .writeDone).countP (fun t => t.hasFetched)
      rw [countP_set_val (fun t => t.hasFetched) s.tasks i .writeDone .fetchDone hi htval 1 1 rfl rfl]
      omega
    · show s.writes + 1 = (s.tasks.set i .writeDone).countP (fun t => t.hasWritten)
      rw [countP_set_val (fun t => t.hasWritten) s.tasks i .writeDone .fetchDone hi htval 0 1 rfl rfl]
      omega
  | writeDone =>
    have hposCS : 0 < s.tasks.countP (fun t => t.inCS) := hpos _ rfl
    have hposF : 0 < s.tasks.countP (fun t => t.hasFetched) := hpos _ rfl
    have hposW : 0 < s.tasks.countP (fun t => t.hasWritten) := hpos _ rfl
    simp only [rstep, hget]
    refine ⟨by simpa using hlen, by simpa using holen, ?_, ?_, ?_, ?_, ?_⟩
    · show (s.tasks.set i .finished).countP (fun t => t.inCS) ≤ 1
      rw [countP_set_val (fun t => t.inCS) s.tasks i .finished .writeDone hi htval 1 0 rfl rfl]
      omega
    · intro _
      show (s.tasks.set i .finished).countP (fun t => t.inCS) = 0
      rw [countP_set_val (fun t => t.inCS) s.tasks i .finished .writeDone hi htval 1 0 rfl rfl]
      omega
    · show s.fetches = (s.tasks.set i .finished).countP (fun t => t.hasFetched)
      rw [countP_set_val (fun t => t.hasFetched) s.tasks i .finished .writeDone hi htval 1 1 rfl rfl]
      omega
    · show s.writes = (s.tasks.set i .finished).countP (fun t => t.hasWritten)
      rw [countP_set_val (fun t => t.hasWritten) s.tasks i .finished .writeDone hi htval 1 1 rfl rfl]
      omega
    · intro j hj
      by_cases hij : i = j
      · subst hij
        refine ⟨s.writes, ?_, ?_⟩
        · rw [List.getElem?_set_self hio]
        · rw [hwrt]
          omega
      · rw [List.getElem?_set_ne hij] at hj
        obtain ⟨v, hv, h1⟩ := hobs j hj
        exact ⟨v, by rw [List.getElem?_set_ne hij]; exact hv, h1⟩
  | finished =>
    have hs : rstep s i = s := by simp [rstep, hget]
    rw [hs]
    exact ⟨hlen, holen, hcs, hlock, hfet, hwrt, hobs⟩

theorem rrun_inv (n : Nat) (s : RefreshSys) (sched : List Nat) (h : RefreshInv n s) :
    RefreshInv n (rrun s sched) := by
  induction sched generalizing s with
  | nil => exact h
  | cons i rest ih => exact ih (rstep s i) (rstep_inv n s i h)

theorem rinit_inv (n : Nat) : RefreshInv n (rinit n) := by
  refine ⟨by simp [rinit], by simp [rinit], ?_, ?_, ?_, ?_, ?_⟩
  · simp [csCount, rinit, List.countP_replicate, RTask.inCS]
  · intro _
    simp [csCount, rinit, List.countP_replicate, RTask.inCS]
  · simp [rinit, List.countP_replicate, RTask.hasFetched]
  · simp [rinit, List.countP_replicate, RTask.hasWritten]
  · intro i hifin
    rw [rinit] at hifin
    simp only [List.getElem?_replicate] at hifin
    split at hifin
    · cases hifin
    · cases hifin

/-- C1 (amended): the refresh guard serializes but does not single-flight.
In every reachable state of `n` concurrent `refresh_holiday_cache` calls
at most one task is inside the fetch-and-write critical section (mutual
exclusion), and when all callers have completed, each has performed its
own network fetch and its own document write — `n` fetches and `n` writes
in total, not one — and every caller returned observing a cache on which
at least one completed refresh write (its own) had been applied. -/
theorem refresh_serialization (n : Nat) (sched : List Nat) :
    csCount (rrun (rinit n) sched) ≤ 1 ∧
    ((∀ t ∈ (rrun (rinit n) sched).tasks, t = RTask.finished) →
       (rrun (rinit n) sched).fetches = n ∧
       (rrun (rinit n) sched).writes = n ∧
       ∀ o ∈ (rrun (rinit n) sched).observations, ∃ v, o = some v ∧ 1 ≤ v) := by
  obtain ⟨hlen, holen, hcs, hlock, hfet, hwrt, hobs⟩ :=
    rrun_inv n (rinit n) sched (rinit_inv n)
  refine ⟨hcs, ?_⟩
  intro hall
  refine ⟨?_, ?_, ?_⟩
  · rw [hfet, List.countP_eq_length.mpr, hlen]
    intro a ha
    rw [hall a ha]
    rfl
  · rw [hwrt, List.countP_eq_length.mpr, hlen]
    intro a ha
    rw [hall a ha]
    rfl
  · intro o ho
    obtain ⟨j, hj⟩ := List.mem_iff_getElem?.mp ho
    have hjlt : j < (rrun (rinit n) sched).observations.length := by
      by_contra hcon
      rw [List.getElem?_eq_none (Nat.le_of_not_lt hcon)] at hj
      cases hj
    have hjt : j < (rrun (rinit n) sched).tasks.length := by omega
    have htj : (rrun (rinit n) sched).tasks[j]? = some RTask.finished := by
      rw [List.getElem?_eq_getElem hjt, hall _ (List.getElem_mem hjt)]
    obtain ⟨v, hv, h1⟩ := hobs j htj
    rw [hj] at hv
    exact ⟨v, Option.some.inj hv, h1⟩

/-- Counterexample to C1 as stated: two concurrent `refresh` calls, the
first running to completion and then the second (the exact behaviour of
`async with _refresh_lock`: the second caller waits, then performs its own
fetch).  Both complete, and the system has performed two network fetches
and two document writes — not exactly one. -/
theorem refresh_not_single_flight :
    (∀ t ∈ (rrun (rinit 2) [0, 0, 0, 0, 1, 1, 1, 1]).tasks, t = RTask.finished) ∧
    (rrun (rinit 2) [0, 0, 0, 0, 1, 1, 1, 1]).fetches = 2 ∧
    (rrun (rinit 2) [0, 0, 0, 0, 1, 1, 1, 1]).writes = 2 := by
  decide

/-- Witness for `refresh_serialization` on a concrete interleaved schedule
of two tasks. -/
theorem refresh_serialization_witness :
    (rrun (rinit 2) [0, 1, 0, 1, 0, 0, 1, 1, 1, 1]).fetches = 2 ∧
    (rrun (rinit 2) [0, 1, 0, 1, 0, 0, 1, 1, 1, 1]).writes = 2 ∧
    ∀ o ∈ (rrun (rinit 2) [0, 1, 0, 1, 0, 0, 1, 1, 1, 1]).observations,
      ∃ v, o = some v ∧ 1 ≤ v :=
  (refresh_serialization 2 [0, 1, 0, 1, 0, 0, 1, 1, 1, 1]).2 (by decide)

/-! ## Parser: machine versus declarative reference -/

theorem regionsGo_inside (target : String) (evs : List HtmlEvent) :
    ∀ (depth : Nat) (acc : List HtmlEvent),
      regionsGo target evs (some (depth, acc)) =
        (acc.reverse ++ (takeRegion depth evs).1) :: regions target (takeRegion depth evs).2 := by
  induction evs with
  | nil =>
    intro depth acc
    simp [regionsGo, takeRegion, regions]
  | cons e rest ih =>
    intro depth acc
    cases e with
    | startTag tag attrs =>
      by_cases hdiv : tag = "div"
      · simp [regionsGo, takeRegion, hdiv, ih]
      · simp [regionsGo, takeRegion, hdiv, ih]
    | endTag tag =>
      by_cases hdiv : tag = "div"
      · by_cases hd : depth ≤ 1
        · simp [regionsGo, takeRegion, hdiv, hd, regions]
        · simp [regionsGo, takeRegion, hdiv, hd, ih]
      · simp [regionsGo, takeRegion, hdiv, ih]
    | textData t => simp [regionsGo, takeRegion, ih]

theorem prun_no_target (target : String) (evs : List HtmlEvent) :
    ∀ buf hol, (∀ e ∈ evs, isTargetDivStart target e = false) →
      (prun target ⟨false, 0, false, buf, hol⟩ evs).holidays = hol := by
  induction evs with
  | nil =>
    intro buf hol _
    rfl
  | cons e rest ih =>
    intro buf hol hno
    have he := hno e (by simp)
    have hrest : ∀ x ∈ rest, isTargetDivStart target x = false := fun x hx =>
      hno x (by simp [hx])
    have hstep : pstep target ⟨false, 0, false, buf, hol⟩ e = ⟨false, 0, false, buf, hol⟩ := by
      cases e with
      | startTag tag attrs =>
        by_cases hdiv : tag = "div"
        · have hid : ¬ attrId attrs = some target := by
            simp [isTargetDivStart, hdiv] at he
            simpa using he
          simp [pstep, handle_starttag, hdiv, hid]
        · simp [pstep, handle_starttag, hdiv]
      | endTag tag => simp [pstep, handle_endtag]
      | textData t => simp [pstep, handle_data]
    simp only [prun]
    rw [hstep]
    exact ih buf hol hrest

theorem prun_spec_aux (target : String) (evs : List HtmlEvent) :
    (∀ buf hol, allRegionsClosed target evs = true →
       (prun target ⟨false, 0, false, buf, hol⟩ evs).holidays =
         hol ++ specHolidayTexts target evs) ∧
    (∀ depth cap buf hol, 1 ≤ depth →
       capAfter cap (takeRegion depth evs).1 = false →
       allRegionsClosed target (takeRegion depth evs).2 = true →
       (prun target ⟨true, depth, cap, buf, hol⟩ evs).holidays =
         hol ++ ((if cap then anchorCapture buf (takeRegion depth evs).1
                  else anchorTexts (takeRegion depth evs).1) ++
           specHolidayTexts target (takeRegion depth evs).2)) := by
  induction evs with
  | nil =>
    constructor
    · intro buf hol _
      simp [prun, specHolidayTexts, regions, regionsGo]
    · intro depth cap buf hol _ _ _
      cases cap <;>
        simp [prun, takeRegion, specHolidayTexts, regions, regionsGo, anchorTexts, anchorCapture]
  | cons e rest ih =>
    obtain ⟨ihP, ihQ⟩ := ih
    constructor
    · intro buf hol hW
      cases e with
      | startTag tag attrs =>
        by_cases hdiv : tag = "div"
        · subst hdiv
          by_cases hid : attrId attrs = some target
          · have hTD : isTargetDivStart target (.startTag "div" attrs) = true := by
              simp [isTargetDivStart, hid]
            have hreg : regions target (.startTag "div" attrs :: rest) =
                (takeRegion 1 rest).1 :: regions target (takeRegion 1 rest).2 := by
              simp only [regions, regionsGo, hTD, if_true]
              rw [regionsGo_inside]
              simp [regions]
            rw [allRegionsClosed, hreg] at hW
            simp only [List.all_cons, Bool.and_eq_true, Bool.not_eq_true'] at hW
            obtain ⟨hcap1, hWrest⟩ := hW
            have hstep : pstep target ⟨false, 0, false, buf, hol⟩ (.startTag "div" attrs) =
                ⟨true, 1, false, buf, hol⟩ := by
              simp [pstep, handle_starttag, hid]
            simp only [prun]
            rw [hstep]
            rw [ihQ 1 false buf hol (by omega) hcap1 (by simpa [allRegionsClosed] using hWrest)]
            simp [specHolidayTexts, hreg]
          · have hTD : isTargetDivStart target (.startTag "div" attrs) = false := by
              simp [isTargetDivStart, hid]
            have hreg : regions target (.startTag "div" attrs :: rest) = regions target rest := by
              simp [regions, regionsGo, hTD]
            rw [allRegionsClosed, hreg] at hW
            have hstep : pstep target ⟨false, 0, false, buf, hol⟩ (.startTag "div" attrs) =
                ⟨false, 0, false, buf, hol⟩ := by
              simp [pstep, handle_starttag, hid]
            simp only [prun]
            rw [hstep]
            rw [ihP buf hol (by simpa [allRegionsClosed] using hW)]
            simp [specHolidayTexts, hreg]
        · have hreg : regions target (.startTag tag attrs :: rest) = regions target rest := by
            simp [regions, regionsGo, isTargetDivStart, hdiv]
          rw [allRegionsClosed, hreg] at hW
          have hstep : pstep target ⟨false, 0, false, buf, hol⟩ (.startTag tag attrs) =
              ⟨false, 0, false, buf, hol⟩ := by
            simp [pstep, handle_starttag, hdiv]
          simp only [prun]
          rw [hstep]
          rw [ihP buf hol (by simpa [allRegionsClosed] using hW)]
          simp [specHolidayTexts, hreg]
      | endTag tag =>
        have hreg : regions target (.endTag tag :: rest) = regions target rest := by
          simp [regions, regionsGo, isTargetDivStart]
        rw [allRegionsClosed, hreg] at hW
        have hstep : pstep target ⟨false, 0, false, buf, hol⟩ (.endTag tag) =
            ⟨false, 0, false, buf, hol⟩ := by
          simp [pstep, handle_endtag]
        simp only [prun]
        rw [hstep]
        rw [ihP buf hol (by simpa [allRegionsClosed] using hW)]
        simp [specHolidayTexts, hreg]
      | textData t =>
        have hreg : regions target (.textData t :: rest) = regions target rest := by
          simp [regions, regionsGo, isTargetDivStart]
        rw [allRegionsClosed, hreg] at hW
        have hstep : pstep target ⟨false, 0, false, buf, hol⟩ (.textData t) =
            ⟨false, 0, false, buf, hol⟩ := by
          simp [pstep, handle_data]
        simp only [prun]
        rw [hstep]
        rw [ihP buf hol (by simpa [allRegionsClosed] using hW)]
        simp [specHolidayTexts, hreg]
    · intro depth cap buf hol hdep hcap hW
      cases e with
      | startTag tag attrs =>
        by_cases hdiv : tag = "div"
        · subst hdiv
          have htr : takeRegion depth (.startTag "div" attrs :: rest) =
              (.startTag "div" attrs :: (takeRegion (depth + 1) rest).1,
               (takeRegion (depth + 1) rest).2) := by
            simp [takeRegion]
          rw [htr] at hcap hW ⊢
          have hcap' : capAfter cap (takeRegion (depth + 1) rest).1 = false := by
            simpa [capAfter] using hcap
          have hstep : pstep target ⟨true, depth, cap, buf, hol⟩ (.startTag "div" attrs) =
              ⟨true, depth + 1, cap, buf, hol⟩ := by
            simp [pstep, handle_starttag]
          simp only [prun]
          rw [hstep]
          rw [ihQ (depth + 1) cap buf hol (by omega) hcap' (by simpa using hW)]
          cases cap <;> simp [anchorTexts, anchorCapture]
        · by_cases hA : tag = "a"
          · subst hA
            by_cases hH : hrefMatches (attrHref attrs) = true
            · have htr : takeRegion depth (.startTag "a" attrs :: rest) =
                  (.startTag "a" attrs :: (takeRegion depth rest).1,
                   (takeRegion depth rest).2) := by
                simp [takeRegion]
              rw [htr] at hcap hW ⊢
              have hcap' : capAfter true (takeRegion depth rest).1 = false := by
                simpa [capAfter, hH] using hcap
              have hstep : pstep target ⟨true, depth, cap, buf, hol⟩ (.startTag "a" attrs) =
                  ⟨true, depth, true, [], hol⟩ := by
                simp [pstep, handle_starttag, hH]
              simp only [prun]
              rw [hstep]
              rw [ihQ depth true [] hol hdep hcap' (by simpa using hW)]
              cases cap <;> simp [anchorTexts, anchorCapture, hH]
            · have hH' : hrefMatches (attrHref attrs) = false := by
                simpa using hH
              have htr : takeRegion depth (.startTag "a" attrs :: rest) =
                  (.startTag "a" attrs :: (takeRegion depth rest).1,
                   (takeRegion depth rest).2) := by
                simp [takeRegion]
              rw [htr] at hcap hW ⊢
              have hcap' : capAfter cap (takeRegion depth rest).1 = false := by
                simpa [capAfter, hH'] using hcap
              have hstep : pstep target ⟨true, depth, cap, buf, hol⟩ (.startTag "a" attrs) =
                  ⟨true, depth, cap, buf, hol⟩ := by
                simp [pstep, handle_starttag, hH']
              simp only [prun]
              rw [hstep]
              rw [ihQ depth cap buf hol hdep hcap' (by simpa using hW)]
              cases cap <;> simp [anchorTexts, anchorCapture, hH']
          · have htr : takeRegion depth (.startTag tag attrs :: rest) =
                (.startTag tag attrs :: (takeRegion depth rest).1,
                 (takeRegion depth rest).2) := by
              simp [takeRegion, hdiv]
            rw [htr] at hcap hW ⊢
            have hcap' : capAfter cap (takeRegion depth rest).1 = false := by
              simpa [capAfter, hA] using hcap
            have hstep : pstep target ⟨true, depth, cap, buf, hol⟩ (.startTag tag attrs) =
                ⟨true, depth, cap, buf, hol⟩ := by
              simp [pstep, handle_starttag, hdiv, hA]
            simp only [prun]
            rw [hstep]
            rw [ihQ depth cap buf hol hdep hcap' (by simpa using hW)]
            cases cap <;> simp [anchorTexts, anchorCapture, hA, hdiv]
      | endTag tag =>
        by_cases hdiv : tag = "div"
        · subst hdiv
          by_cases hd : depth ≤ 1
          · have htr : takeRegion depth (.endTag "div" :: rest) = ([], rest) := by
              simp [takeRegion, hd]
            rw [htr] at hcap hW ⊢
            have hcap0 : cap = false := by simpa [capAfter] using hcap
            subst hcap0
            have hstep : pstep target ⟨true, depth, false, buf, hol⟩ (.endTag "div") =
                ⟨false, 0, false, buf, hol⟩ := by
              simp [pstep, handle_endtag, hd]
            simp only [prun]
            rw [hstep]
            rw [ihP buf hol hW]
            simp [anchorTexts]
          · have htr : takeRegion depth (.endTag "div" :: rest) =
                (.endTag "div" :: (takeRegion (depth - 1) rest).1,
                 (takeRegion (depth - 1) rest).2) := by
              simp [takeRegion, hd]
            rw [htr] at hcap hW ⊢
            have hcap' : capAfter cap (takeRegion (depth - 1) rest).1 = false := by
              simpa [capAfter] using hcap
            have hstep : pstep target ⟨true, depth, cap, buf, hol⟩ (.endTag "div") =
                ⟨true, depth - 1, cap, buf, hol⟩ := by
              simp [pstep, handle_endtag, hd]
            simp only [prun]
            rw [hstep]
            rw [ihQ (depth - 1) cap buf hol (by omega) hcap' (by simpa using hW)]
            cases cap <;> simp [anchorTexts, anchorCapture]
        · have htr : takeRegion depth (.endTag tag :: rest) =
              (.endTag tag :: (takeRegion depth rest).1, (takeRegion depth rest).2) := by
            simp [takeRegion, hdiv]
          rw [htr] at hcap hW ⊢
          by_cases hA : tag = "a"
          · subst hA
            have hcap' : capAfter false (takeRegion depth rest).1 = false := by
              simpa [capAfter] using hcap
            cases hc : cap with
            | true =>
              have hstep : pstep target ⟨true, depth, true, buf, hol⟩ (.endTag "a") =
                  ⟨true, depth, false, [],
                   hol ++ (if pyStrip (String.join buf) = "" then []
                           else [pyStrip (String.join buf)])⟩ := by
                simp [pstep, handle_endtag]
                split <;> simp
              simp only [prun]
              rw [hstep]
              rw [ihQ depth false []
                    (hol ++ (if pyStrip (String.join buf) = "" then []
                             else [pyStrip (String.join buf)]))
                    hdep hcap' (by simpa using hW)]
              by_cases htext : pyStrip (String.join buf) = "" <;>
                simp [anchorCapture, htext, List.append_assoc]
            | false =>
              have hstep : pstep target ⟨true, depth, false, buf, hol⟩ (.endTag "a") =
                  ⟨true, depth, false, buf, hol⟩ := by
                simp [pstep, handle_endtag]
              simp only [prun]
              rw [hstep]
              rw [ihQ depth false buf hol hdep hcap' (by simpa using hW)]
              simp [anchorTexts]
          · have hcap' : capAfter cap (takeRegion depth rest).1 = false := by
              simpa [capAfter, hA] using hcap
            have hstep : pstep target ⟨true, depth, cap, buf, hol⟩ (.endTag tag) =
                ⟨true, depth, cap, buf, hol⟩ := by
              simp [pstep, handle_endtag, hdiv, hA]
            simp only [prun]
            rw [hstep]
            rw [ihQ depth cap buf hol hdep hcap' (by simpa using hW)]
            cases cap <;> simp [anchorTexts, anchorCapture, hA]
      | textData t =>
        have htr : takeRegion depth (.textData t :: rest) =
            (.textData t :: (takeRegion depth rest).1, (takeRegion depth rest).2) := by
          simp [takeRegion]
        rw [htr] at hcap hW ⊢
        have hcap' : capAfter cap (takeRegion depth rest).1 = false := by
          simpa [capAfter] using hcap
        by_cases hc : cap = true
        · subst hc
          have hstep : pstep target ⟨true, depth, true, buf, hol⟩ (.textData t) =
              ⟨true, depth, true, buf ++ [t], hol⟩ := by
            simp [pstep, handle_data]
          simp only [prun]
          rw [hstep]
          rw [ihQ depth true (buf ++ [t]) hol hdep hcap' (by simpa using hW)]
          simp [anchorCapture]
        · have hc' : cap = false := by simpa using hc
          subst hc'
          have hstep : pstep target ⟨true, depth, false, buf, hol⟩ (.textData t) =
              ⟨true, depth, false, buf, hol⟩ := by
            simp [pstep, handle_data]
          simp only [prun]
          rw [hstep]
          rw [ihQ depth false buf hol hdep hcap' (by simpa using hW)]
          simp [anchorTexts]

/-- C7 (amended): provided every link opened inside a target section is
closed before the section ends (`allRegionsClosed`), the parser collects
exactly the trimmed, non-empty visible texts of the links whose target
matches the fixed holiday-entry path pattern and that lie inside the
sections identified by the target container id, in document order, with
section boundaries tracked by `div` nesting depth and everything outside
the sections ignored; when an anchor does span a section boundary the
parser keeps capturing past the section end (the refuted part of the
original claim).  If the container id does not occur at all, the parser
returns the empty list without raising (the embedding is total). -/
theorem parser_contract (targetDivId : String) (events : List HtmlEvent) :
    (allRegionsClosed targetDivId events = true →
       parseHolidayAnchors targetDivId events = specHolidayTexts targetDivId events) ∧
    ((∀ e ∈ events, isTargetDivStart targetDivId e = false) →
       parseHolidayAnchors targetDivId events = []) := by
  constructor
  · intro hW
    have h := (prun_spec_aux targetDivId events).1 [] [] hW
    simpa [parseHolidayAnchors] using h
  · intro hno
    have h := prun_no_target targetDivId events [] [] hno
    simpa [parseHolidayAnchors] using h

/-- Witness for `parser_contract`: a page with one target section holding
two matching links (one inside a nested `div`), a non-matching link, and
content outside the section. -/
theorem parser_contract_witness :
    parseHolidayAnchors "div_7"
      [.textData "outside", .startTag "div" [("id", some "div_7")],
       .startTag "a" [("href", some "/holidays/0/0/1/")], .textData " Праздник A ",
       .endTag "a", .startTag "div" [],
       .startTag "a" [("href", some "/holidays/0/0/2/")], .textData "B", .endTag "a",
       .endTag "div", .startTag "a" [("href", some "/other/")], .textData "skip",
       .endTag "a", .endTag "div",
       .startTag "a" [("href", some "/holidays/0/0/3/")], .textData "C", .endTag "a"] =
      specHolidayTexts "div_7"
        [.textData "outside", .startTag "div" [("id", some "div_7")],
         .startTag "a" [("href", some "/holidays/0/0/1/")], .textData " Праздник A ",
         .endTag "a", .startTag "div" [],
         .startTag "a" [("href", some "/holidays/0/0/2/")], .textData "B", .endTag "a",
         .endTag "div", .startTag "a" [("href", some "/other/")], .textData "skip",
         .endTag "a", .endTag "div",
         .startTag "a" [("href", some "/holidays/0/0/3/")], .textData "C", .endTag "a"] ∧
    parseHolidayAnchors "div_7" [.textData "x", .endTag "div"] = [] :=
  ⟨(parser_contract "div_7" _).1 (by decide),
   (parser_contract "div_7" [.textData "x", .endTag "div"]).2 (by decide)⟩

/-- Counterexample to C7 as stated: an anchor opened inside the
`div_5` container whose closing tag lies beyond the container's end.  The
container holds only the link start and the text `"A"` (the single
extracted region), yet the parser's output is `["AB"]`: the text `"B"`,
which lies outside the container, is captured — content outside the
container is not ignored.  The reference contract built from the
specification's wording yields `[]` on this input. -/
theorem parser_leak_counterexample :
    parseHolidayAnchors "div_5"
      [.startTag "div" [("id", some "div_5")],
       .startTag "a" [("href", some "/holidays/0/0/x")],
       .textData "A", .endTag "div", .textData "B", .endTag "a"] = ["AB"] ∧
    regions "div_5"
      [.startTag "div" [("id", some "div_5")],
       .startTag "a" [("href", some "/holidays/0/0/x")],
       .textData "A", .endTag "div", .textData "B", .endTag "a"] =
      [[.startTag "a" [("href", some "/holidays/0/0/x")], .textData "A"]] ∧
    specHolidayTexts "div_5"
      [.startTag "div" [("id", some "div_5")],
       .startTag "a" [("href", some "/holidays/0/0/x")],
       .textData "A", .endTag "div", .textData "B", .endTag "a"] = [] :=
  ⟨rfl, rfl, rfl⟩

/-! ## C2: `select_autopost_holiday` at the specified example -/

/-- C2: the code evaluated at the specification's own examples.  The
country-keyword filter tests for the lowercase substrings `"россия"` and
`"russia"`; the genitive `"России"` in `"День России"` contains neither, so
the filter keeps that entry and the function returns it — not
`"Прадник мороженого"` as the specification requires.  The other two
specified examples hold. -/
theorem select_autopost_holiday_at_spec_examples :
    select_autopost_holiday ["День России", "Прадник мороженого"] = some "День России" ∧
    select_autopost_holiday ["День России"] = some "День России" ∧
    select_autopost_holiday [] = none :=
  ⟨rfl, rfl, rfl⟩

end HolidayBot
